import Mathlib

/-!
Verification of the faceswap_bot backend's job-orchestration core
(src/backend/jobs.py, src/backend/app.py, src/backend/config.py) against
its specification.

The embedding is shallow: each Python function of the backend becomes a
Lean definition of the same name. Job records (Python dicts persisted as
one JSON file per job id) become a `Job` structure; the file store keyed
by job id becomes an association list `Store`; wall-clock timestamps
become a `Nat` parameter `now`; the fresh uuid-based paths become
explicit string parameters. Exceptions become `Except` values; the
FastAPI `HTTPException(status_code, detail)` becomes `HErr`.
-/

set_option maxRecDepth 4000

deriving instance DecidableEq for Except

/-- `HTTPException(status_code, detail)` as raised throughout the backend. -/
structure HErr where
  status_code : Nat
  detail : String
deriving Repr, DecidableEq

/-- One persisted job record: the dict built by `create_job_record`
(src/backend/jobs.py) and mutated by the handlers and the worker.
`created_at`/`updated_at` are modelled as `Nat` instants. -/
structure Job where
  job_id : String
  owner_id : String
  mode : String
  target_kind : String
  status : String
  source_path : Option String
  target_path : Option String
  output_path : Option String
  reference_frame_number : Option Int
  progress : Nat
  stage : Option String
  webhook_url : Option String
  webhook_events : Option (List String)
  error : Option String := none
  webhook_last_error : Option String := none
  created_at : Nat := 0
  updated_at : Nat := 0
deriving Repr, DecidableEq

/-- The job-record store: one record per job id (`API_JOBS_PATH/<id>.json`). -/
abbrev Store := List (String × Job)

def storeFind (store : Store) (job_id : String) : Option Job :=
  match store.find? (fun e => e.1 = job_id) with
  | some e => some e.2
  | none => none

def storePut (store : Store) (job : Job) : Store :=
  match store with
  | [] => [(job.job_id, job)]
  | e :: rest => if e.1 = job.job_id then (job.job_id, job) :: rest
                 else e :: storePut rest job

/- ---- config.py constants the claims need ---- -/

def DEFAULT_MODE : String := "photo_video_fast"

def ALLOWED_MODES : List String :=
  ["photo_video_fast", "photo_video_quality", "photo_photo_gpen", "photo_photo_codeformer"]

def ALLOWED_IMAGE_EXT : List String := [".jpg", ".jpeg", ".png"]

def ALLOWED_VIDEO_EXT : List String := [".mp4", ".mov"]

/- ---- jobs.py: record store ---- -/

/-- `load_job` (jobs.py): read the record under the global `JOB_LOCK`;
a missing id raises 404 "Job not found". -/
def load_job (store : Store) (job_id : String) : Except HErr Job :=
  match storeFind store job_id with
  | none => .error ⟨404, "Job not found"⟩
  | some job => .ok job

/-- `save_job` (jobs.py): under `JOB_LOCK`, stamp `updated_at` and write
the whole record back to `API_JOBS_PATH/<id>.json`. The python function
mutates the caller's dict (it sets `updated_at` on it), so the stamped
record is returned alongside the new store. -/
def save_job (now : Nat) (job : Job) (store : Store) : Store × Job :=
  let j := { job with updated_at := now }
  (storePut store j, j)

/-- `allowed_target_kind` (jobs.py). -/
def allowed_target_kind (mode : String) : String :=
  if ("photo_video".data).isPrefixOf mode.data then "video" else "image"

/-- `create_job_record` (jobs.py): the fresh record persisted on job
creation. The uuid-based id is a parameter. -/
def create_job_record (job_id owner_id mode : String) (now : Nat) : Job :=
  { job_id := job_id
    owner_id := owner_id
    mode := mode
    target_kind := allowed_target_kind mode
    status := "waiting_source"
    source_path := none
    target_path := none
    output_path := none
    reference_frame_number := none
    progress := 0
    stage := none
    webhook_url := none
    webhook_events := none
    created_at := now
    updated_at := now }

/- ---- config.py: PROGRESS_RE, and jobs.py: parse_progress ----

`PROGRESS_RE = re.compile(r"(analysing|extracting|processing|merging|restoring|finalizing):\s+(\d+)%")`
and `parse_progress` applies `PROGRESS_RE.search(line)` and returns
`(match.group(1), int(match.group(2)))` on a match, else `None`.

The regex is embedded directly: `re.search` tries each start position
left to right; at a position the alternation picks the verb that is a
prefix there (the six verbs have pairwise distinct first letters, so at
most one alternative can match at a position); `\s+` and `\d+` are
greedy runs over disjoint character classes followed by literals outside
those classes, so they match exactly the maximal runs. `\s`/`\d` are
embedded over their ASCII members, which cover the engine's output. -/

def progressVerbs : List String :=
  ["analysing", "extracting", "processing", "merging", "restoring", "finalizing"]

/-- The characters of Python's `\s` (ASCII): space, tab, newline,
carriage return, vertical tab, form feed. -/
def isSpaceChar (c : Char) : Bool :=
  c == ' ' || c == '\t' || c == '\n' || c == '\r' || c == Char.ofNat 11 || c == Char.ofNat 12

/-- `int(...)` on the digit group. -/
def digitsVal (ds : List Char) : Nat :=
  List.foldl (fun n c => 10 * n + (c.toNat - 48)) 0 ds

/-- The part of the pattern after the captured verb: `:`, then `\s+`,
then the captured `\d+`, then `%`. Returns the percent value. -/
def matchTail (cs : List Char) : Option Nat :=
  match cs with
  | ':' :: rest =>
    if (rest.takeWhile isSpaceChar).isEmpty then none
    else
      if ((rest.dropWhile isSpaceChar).takeWhile Char.isDigit).isEmpty then none
      else
        match (rest.dropWhile isSpaceChar).dropWhile Char.isDigit with
        | '%' :: _ => some (digitsVal ((rest.dropWhile isSpaceChar).takeWhile Char.isDigit))
        | _ => none
  | _ => none

/-- The whole pattern anchored at the current position: one alternative
of the verb group, then `matchTail` after it. -/
def tryMatchAt (cs : List Char) : Option (String × Nat) :=
  match progressVerbs.find? (fun v => v.data.isPrefixOf cs) with
  | none => none
  | some v =>
    match matchTail (cs.drop v.length) with
    | some n => some (v, n)
    | none => none

/-- `re.search`: try every start position, leftmost first. -/
def regexSearch : List Char → Option (String × Nat)
  | [] => none
  | c :: rest =>
    match tryMatchAt (c :: rest) with
    | some r => some r
    | none => regexSearch rest

/-- `parse_progress` (jobs.py): `PROGRESS_RE.search` plus the group
extraction; `None` when the pattern does not occur in the line. -/
def parse_progress (line : String) : Option (String × Nat) :=
  regexSearch line.data

/-- The spec's description of a matching line, written from its words:
the line contains a lowercase verb from the fixed set, a colon,
whitespace, an unsigned integer percentage and a percent sign. -/
def SpecProgressLine (line : String) : Prop :=
  ∃ pre post sp ds : List Char, ∃ verb : String,
    verb ∈ progressVerbs ∧
    sp ≠ [] ∧ (∀ c ∈ sp, isSpaceChar c = true) ∧
    ds ≠ [] ∧ (∀ c ∈ ds, c.isDigit = true) ∧
    line.data = pre ++ verb.data ++ ':' :: (sp ++ ds ++ '%' :: post)

/- ---- jobs.py: send_webhook ---- -/

/-- The JSON body `send_webhook` posts to the registered webhook URL. -/
structure WebhookPayload where
  event : String
  job_id : String
  status : String
  stage : Option String
  progress : Nat
  mode : String
  target_kind : String
  owner_id : String
  updated_at : Nat
deriving Repr, DecidableEq

/-- Python truthiness of an optional string field read with
`job.get(...)`: `None` and `""` are falsy. -/
def truthyStr : Option String → Bool
  | none => false
  | some s => s ≠ ""

/-- `send_webhook` (jobs.py): the decision and payload logic. The actual
HTTP post is modelled by the returned payload; `none` means no outbound
push. `job.get("webhook_events") or [...]` defaults both a missing and
an empty list to all four events. -/
def send_webhook (job : Job) (event : String) : Option WebhookPayload :=
  if ¬ truthyStr job.webhook_url then none
  else
    let events :=
      match job.webhook_events with
      | none => ["queued", "running", "completed", "failed"]
      | some l => if l = [] then ["queued", "running", "completed", "failed"] else l
    if event ∈ events then
      some { event := event
             job_id := job.job_id
             status := job.status
             stage := job.stage
             progress := job.progress
             mode := job.mode
             target_kind := job.target_kind
             owner_id := job.owner_id
             updated_at := job.updated_at }
    else none

/- ---- jobs.py: run_facefusion_job and the lane workers ---- -/

/-- Observable actions of the dispatcher, in order of occurrence:
`saved` is a `save_job` write of a record (the record as persisted),
`notified` is a `send_webhook` invocation, `ran` is the spawning of the
engine subprocess (`job-run`) for a job. -/
inductive Ev where
  | saved (job : Job)
  | notified (job : Job) (event : String)
  | ran (job_id : String)
deriving Repr, DecidableEq

/-- What the engine subprocess does for one job: its merged
stdout/stderr lines and its exit code. -/
structure ProcBehavior where
  outputLines : List String
  exitCode : Int
deriving Repr, DecidableEq

/-- `str(subprocess.CalledProcessError(ret, args))`: a non-empty message
carrying the exit code (the argv literal in the real message is elided). -/
def calledProcessErrorStr (code : Int) : String :=
  "Command returned non-zero exit status " ++ toString code ++ "."

/-- How `run_facefusion_job` can raise: `exitError` is
`subprocess.CalledProcessError(ret, args)` on a nonzero exit code;
`httpError` is an `HTTPException` escaping the `update_job` progress
callback (e.g. the record vanished mid-run). -/
inductive RunErr where
  | exitError (code : Int)
  | httpError (e : HErr)
deriving Repr, DecidableEq

/-- `str(exc)` as the worker records it in the job's `error` field. -/
def runErrStr : RunErr → String
  | .exitError code => calledProcessErrorStr code
  | .httpError e => e.detail

/-- The stdout loop of `run_facefusion_job`: each line goes through
`parse_progress`; on a match, `update_job(job_id, stage=, progress=)`
loads, merges and saves the record. An exception from `update_job`
aborts the loop and propagates. -/
def runLines (now : Nat) (store : Store) (job_id : String) :
    List String → Store × List Ev × Option RunErr
  | [] => (store, [], none)
  | line :: rest =>
    match parse_progress line with
    | none => runLines now store job_id rest
    | some (stage, percent) =>
      match load_job store job_id with
      | .error e => (store, [], some (.httpError e))
      | .ok job =>
        let (s1, j1) := save_job now { job with stage := some stage, progress := percent } store
        let (s2, evs, err) := runLines now s1 job_id rest
        (s2, .saved j1 :: evs, err)

/-- `run_facefusion_job` (jobs.py): spawn `job-run`, stream its output
through the progress callback, wait, and raise
`CalledProcessError(ret, args)` when the exit code is nonzero. -/
def run_facefusion_job (now : Nat) (store : Store) (job_id : String) (beh : ProcBehavior) :
    Store × List Ev × Option RunErr :=
  match runLines now store job_id beh.outputLines with
  | (s, evs, some err) => (s, evs, some err)
  | (s, evs, none) =>
    if beh.exitCode ≠ 0 then (s, evs, some (.exitError beh.exitCode)) else (s, evs, none)

/-- One pass of the `while True` body of `worker` in `start_workers`
(jobs.py): `iterated` means the body ran to its end (the loop goes on to
the next job); `crashed` means an exception escaped the body, which
terminates the consumer task. `load_job` sits before the `try`, so its
exception is not converted to a `failed` transition. -/
inductive WorkerOutcome where
  | iterated (store : Store) (events : List Ev)
  | crashed (err : HErr) (events : List Ev)
deriving Repr, DecidableEq

def workerIteration (now : Nat) (store : Store) (job_id : String) (beh : ProcBehavior) :
    WorkerOutcome :=
  match load_job store job_id with
  | .error e => .crashed e []
  | .ok job =>
    let j1 := { job with status := "running", stage := none, progress := 0 }
    let (s1, j1') := save_job now j1 store
    let head : List Ev := [.saved j1', .notified j1' "running", .ran job_id]
    match run_facefusion_job now s1 job_id beh with
    | (s2, pevs, none) =>
      let j2 := { j1' with status := "completed", stage := some "completed", progress := 100 }
      let (s3, j2') := save_job now j2 s2
      .iterated s3 (head ++ pevs ++ [.saved j2', .notified j2' "completed"])
    | (s2, pevs, some err) =>
      let j2 := { j1' with status := "failed", stage := some "failed", error := some (runErrStr err) }
      let (s3, j2') := save_job now j2 s2
      .iterated s3 (head ++ pevs ++ [.saved j2', .notified j2' "failed"])

/-- A lane: one consumer task draining one FIFO `asyncio.Queue`. The
queue is the list of job ids in enqueue order (`queue_job` appends with
`put_nowait`; `queue.get` takes the head). The worker awaits each job to
its end before the next `get`, so the drain is sequential. The returned
`Bool` is whether the consumer task is still alive afterwards: a crashed
iteration kills the task and the remaining queue is never consumed. -/
def laneRun (now : Nat) (store : Store) (queue : List String) (beh : String → ProcBehavior) :
    Store × List Ev × Bool :=
  match queue with
  | [] => (store, [], true)
  | j :: rest =>
    match workerIteration now store j (beh j) with
    | .iterated s evs =>
      let (s', evs', alive) := laneRun now s rest beh
      (s', evs ++ evs', alive)
    | .crashed _ evs => (store, evs, false)

/-- The job ids in order of their first persisted `running` status,
accumulated onto `acc`. -/
def runningStartsFrom (acc : List String) (evs : List Ev) : List String :=
  List.foldl
    (fun acc ev =>
      match ev with
      | .saved j => if j.status = "running" ∧ ¬ acc.contains j.job_id then acc ++ [j.job_id] else acc
      | _ => acc)
    acc evs

/-- The job ids in order of their first persisted `running` status: the
queued-to-running transition order of a trace. -/
def runningStarts (evs : List Ev) : List String :=
  runningStartsFrom [] evs

/-- The jobs whose last persisted status in the trace is `running`,
starting from the persisted-running set `acc`. -/
def runningSetFrom (acc : List String) (evs : List Ev) : List String :=
  List.foldl
    (fun acc ev =>
      match ev with
      | .saved j =>
        if j.status = "running" then
          if acc.contains j.job_id then acc else acc ++ [j.job_id]
        else acc.erase j.job_id
      | _ => acc)
    acc evs

def runningSet (evs : List Ev) : List String :=
  runningSetFrom [] evs

/-- The outbound webhook pushes a trace of fan-out invocations produces. -/
def pushesOf (evs : List Ev) : List WebhookPayload :=
  evs.filterMap
    (fun ev =>
      match ev with
      | .notified j e => send_webhook j e
      | _ => none)

def isCrashed : WorkerOutcome → Bool
  | .crashed _ _ => true
  | .iterated _ _ => false

/- ---- jobs.py: the persistence layer as filesystem actions (C5) ---- -/

/-- `API_JOBS_PATH / f"{job_id}.json"` (`job_path`, jobs.py). -/
def job_path (job_id : String) : String :=
  job_id ++ ".json"

/-- The observable store actions of one call, in order: the global
`JOB_LOCK`, reads, direct writes and renames of record files. -/
inductive FsOp where
  | lockAcquire
  | lockRelease
  | readFile (path : String)
  | writeFile (path : String) (record : Job)
  | renameFile (src dst : String)
deriving Repr, DecidableEq

/-- `save_job` (jobs.py) as filesystem actions: inside `with JOB_LOCK`,
one direct `Path.write_text` of the whole record onto its final path. -/
def save_job_fs (now : Nat) (job : Job) : List FsOp :=
  [.lockAcquire, .writeFile (job_path job.job_id) { job with updated_at := now }, .lockRelease]

/-- `load_job` (jobs.py) as filesystem actions: inside `with JOB_LOCK`,
one `Path.read_text` of the record file. -/
def load_job_fs (job_id : String) : List FsOp :=
  [.lockAcquire, .readFile (job_path job_id), .lockRelease]

/-- Modelled from the spec's words: "write to a temporary location and
rename" — some write to a path other than the final one, later renamed
onto the final path. -/
def renameOntoAfter (ops : List FsOp) (tmp final : String) : Bool :=
  ops.any
    (fun op =>
      match op with
      | .renameFile src dst => src == tmp && dst == final
      | _ => false)

def usesTempThenRename : List FsOp → String → Bool
  | [], _ => false
  | op :: rest, final =>
    (match op with
     | .writeFile tmp _ => (tmp != final) && renameOntoAfter rest tmp final
     | _ => false)
    || usesTempThenRename rest final

/-- Whether a call's actions hold the store's mutual-exclusion guard
around its body. -/
def guardedByLock (ops : List FsOp) : Bool :=
  match ops with
  | .lockAcquire :: rest =>
    match rest.getLast? with
    | some .lockRelease =>
      (rest.dropLast).all
        (fun op => op ≠ .lockAcquire ∧ op ≠ .lockRelease)
    | _ => false
  | _ => false

/- ---- app.py: the client-facing handlers ----

The HTTP plumbing is stripped to the job-record logic: the upload body
becomes its validated filename suffix (`Path(file.filename).suffix.lower()`)
plus the uuid destination path; each handler takes the store, returns the
store after its saves, and `Except` carries the `HTTPException`s. A
handler that raises before its first `save_job` leaves the store as it
received it. -/

/-- `assert_owner` (app.py). -/
def assert_owner (job : Job) (user_id : String) : Except HErr Unit :=
  if job.owner_id ≠ user_id then .error ⟨403, "Forbidden"⟩ else .ok ()

/-- The `JobResponse` projection (app.py). -/
structure JobResponse where
  job_id : String
  status : String
  mode : String
  target_kind : String
  owner_id : String
  progress : Nat
  stage : Option String
  source_uploaded : Bool
  target_uploaded : Bool
  result_ready : Bool
deriving Repr, DecidableEq

/-- `job_to_response` (app.py). -/
def job_to_response (job : Job) : JobResponse :=
  { job_id := job.job_id
    status := job.status
    mode := job.mode
    target_kind := job.target_kind
    owner_id := job.owner_id
    progress := job.progress
    stage := job.stage
    source_uploaded := truthyStr job.source_path
    target_uploaded := truthyStr job.target_path
    result_ready := job.status = "completed" && truthyStr job.output_path }

/-- `create_job` (POST /jobs, app.py): a mode outside `ALLOWED_MODES` is
replaced by `DEFAULT_MODE`; `create_job_record` builds and saves the
fresh record. -/
def create_job (store : Store) (payload_mode user_id new_id : String) (now : Nat) :
    Store × Job :=
  let mode := if payload_mode ∈ ALLOWED_MODES then payload_mode else DEFAULT_MODE
  let job := create_job_record new_id user_id mode now
  ((save_job now job store).1, job)

/-- `upload_source` (POST /jobs/{id}/source, app.py). -/
def upload_source (store : Store) (job_id user_id suffix dest : String) (now : Nat) :
    Store × Except HErr Job :=
  match load_job store job_id with
  | .error e => (store, .error e)
  | .ok job =>
    match assert_owner job user_id with
    | .error e => (store, .error e)
    | .ok _ =>
      if suffix ∉ ALLOWED_IMAGE_EXT then
        (store, .error ⟨400, "Source must be jpg/jpeg/png"⟩)
      else
        let (s1, j1) := save_job now { job with source_path := some dest, status := "waiting_target" } store
        (s1, .ok j1)

/-- `upload_target` (POST /jobs/{id}/target, app.py): the detected kind
comes from the suffix; a mismatch with the job's `target_kind` is a 400
before any mutation. `tooLong` is `is_video_too_long` on the saved file. -/
def upload_target (store : Store) (job_id user_id suffix dest : String) (tooLong : Bool)
    (now : Nat) : Store × Except HErr Job :=
  match load_job store job_id with
  | .error e => (store, .error e)
  | .ok job =>
    match assert_owner job user_id with
    | .error e => (store, .error e)
    | .ok _ =>
      let kind? : Option String :=
        if suffix ∈ ALLOWED_IMAGE_EXT then some "image"
        else if suffix ∈ ALLOWED_VIDEO_EXT then some "video"
        else none
      match kind? with
      | none => (store, .error ⟨400, "Target must be jpg/jpeg/png or mp4/mov"⟩)
      | some kind =>
        if kind ≠ job.target_kind then
          (store, .error ⟨400, "Target type must be " ++ job.target_kind⟩)
        else if kind = "video" && tooLong then
          (store, .error ⟨400, "Video too long (max 2 minutes)"⟩)
        else
          let j := { job with target_path := some dest,
                              status := if truthyStr job.source_path then "ready" else job.status }
          let (s1, j1) := save_job now j store
          (s1, .ok j1)

/-- `submit_job` (POST /jobs/{id}/submit, app.py): requires both paths,
stamps `output_path` (from `build_output_path`, a fresh uuid name passed
here as `out_path`), saves, runs the three `enqueue_facefusion_job` CLI
phases (external, no record mutation), enqueues into the lane queue,
then transitions to `queued` and fans out the `queued` event. -/
def submit_job (store : Store) (job_id user_id : String) (reference_frame_number : Option Int)
    (out_path : String) (now : Nat) : Store × Except HErr (Job × List Ev) :=
  match load_job store job_id with
  | .error e => (store, .error e)
  | .ok job =>
    match assert_owner job user_id with
    | .error e => (store, .error e)
    | .ok _ =>
      if ¬ truthyStr job.source_path ∨ ¬ truthyStr job.target_path then
        (store, .error ⟨400, "Source and target are required"⟩)
      else
        let j1 := { job with
                    output_path := some out_path
                    reference_frame_number :=
                      match reference_frame_number with
                      | some r => some r
                      | none => job.reference_frame_number }
        let (s1, j1') := save_job now j1 store
        let j2 := { j1' with status := "queued", stage := some "queued", progress := 0 }
        let (s2, j2') := save_job now j2 s1
        (s2, .ok (j2', [.saved j1', .saved j2', .notified j2' "queued"]))

/-- `set_webhook` (POST /jobs/{id}/webhook, app.py): `payload.events or
[...]` stores the default allow-list for both a missing and an empty
list. -/
def set_webhook (store : Store) (job_id user_id url : String) (events : Option (List String))
    (now : Nat) : Store × Except HErr Job :=
  match load_job store job_id with
  | .error e => (store, .error e)
  | .ok job =>
    match assert_owner job user_id with
    | .error e => (store, .error e)
    | .ok _ =>
      if ¬ (("http://".data).isPrefixOf url.data || ("https://".data).isPrefixOf url.data) then
        (store, .error ⟨400, "Webhook url must be http(s)"⟩)
      else
        let evs :=
          match events with
          | none => ["queued", "running", "completed", "failed"]
          | some l => if l = [] then ["queued", "running", "completed", "failed"] else l
        let (s1, j1) := save_job now { job with webhook_url := some url, webhook_events := some evs } store
        (s1, .ok j1)

/-- `get_job` (GET /jobs/{id}, app.py). -/
def get_job (store : Store) (job_id user_id : String) : Store × Except HErr JobResponse :=
  match load_job store job_id with
  | .error e => (store, .error e)
  | .ok job =>
    match assert_owner job user_id with
    | .error e => (store, .error e)
    | .ok _ => (store, .ok (job_to_response job))

/-- The authorization part of `job_events` (GET /jobs/{id}/events,
app.py): load and owner check before the stream is returned. -/
def job_events (store : Store) (job_id user_id : String) : Store × Except HErr Unit :=
  match load_job store job_id with
  | .error e => (store, .error e)
  | .ok job =>
    match assert_owner job user_id with
    | .error e => (store, .error e)
    | .ok _ => (store, .ok ())

/-- `get_result` (GET /jobs/{id}/result, app.py): 404 unless the job is
completed with an output path whose file exists; serves that path. -/
def get_result (store : Store) (job_id user_id : String) (file_exists : Bool) :
    Store × Except HErr String :=
  match load_job store job_id with
  | .error e => (store, .error e)
  | .ok job =>
    match assert_owner job user_id with
    | .error e => (store, .error e)
    | .ok _ =>
      if job.status ≠ "completed" ∨ ¬ truthyStr job.output_path then
        (store, .error ⟨404, "Result not ready"⟩)
      else if ¬ file_exists then
        (store, .error ⟨404, "Result not found"⟩)
      else
        (store, .ok (job.output_path.getD ""))

/-- `cancel_job` (POST /jobs/{id}/cancel, app.py): mark the record
`cancelled`; nothing else — the queue entry and any running subprocess
are untouched. -/
def cancel_job (store : Store) (job_id user_id : String) (now : Nat) :
    Store × Except HErr Job :=
  match load_job store job_id with
  | .error e => (store, .error e)
  | .ok job =>
    match assert_owner job user_id with
    | .error e => (store, .error e)
    | .ok _ =>
      let (s1, j1) := save_job now { job with status := "cancelled" } store
      (s1, .ok j1)

/- ---- observables and concrete fixtures used by the theorems ---- -/

def outcomeEvents : WorkerOutcome → List Ev
  | .iterated _ evs => evs
  | .crashed _ evs => evs

/-- The persisted status of a job after a worker pass (`none` when the
pass crashed or the record is absent). -/
def statusAfter : WorkerOutcome → String → Option String
  | .iterated s _, job_id => (storeFind s job_id).map (fun j => j.status)
  | .crashed _ _, _ => none

/-- The persisted `error` field of a job after a worker pass. -/
def errorAfter : WorkerOutcome → String → Option String
  | .iterated s _, job_id =>
    match storeFind s job_id with
    | some j => j.error
    | none => none
  | .crashed _ _, _ => none

/-- How many fan-out invocations for a given event a trace holds. -/
def notifyCount (evs : List Ev) (event : String) : Nat :=
  evs.countP
    (fun ev =>
      match ev with
      | .notified _ e => e == event
      | _ => false)

/-- Line 165 of jobs.py: `job.get("webhook_events") or ["queued",
"running", "completed", "failed"]`. -/
def webhookAllowList (job : Job) : List String :=
  match job.webhook_events with
  | none => ["queued", "running", "completed", "failed"]
  | some l => if l = [] then ["queued", "running", "completed", "failed"] else l

/-- A job of the image lane owned by "alice" (C10's fixture). -/
def jobA : Job := create_job_record "api-a1" "alice" "photo_photo_gpen" 0

def storeA : Store := [("api-a1", jobA)]

/-- A job ready for submission (C4's fixture). -/
def jobReady : Job :=
  { create_job_record "api-r1" "u4" "photo_video_fast" 0 with
      source_path := some "s.jpg", target_path := some "t.mp4", status := "ready" }

def storeReady : Store := [("api-r1", jobReady)]

/-- `jobReady` as `submit_job` leaves it persisted. -/
def jobSubmitted : Job :=
  { jobReady with output_path := some "out-r1.mp4", status := "queued",
                  stage := some "queued", updated_at := 7 }

def submitEvs : List Ev :=
  [.saved { jobReady with output_path := some "out-r1.mp4", updated_at := 7 },
   .saved jobSubmitted, .notified jobSubmitted "queued"]

/-- A queued job cancelled by its owner before the lane reached it
(C2's fixture). -/
def jobCancelled : Job :=
  { create_job_record "api-c1" "u2" "photo_photo_gpen" 0 with
      source_path := some "s.jpg", target_path := some "t.jpg",
      output_path := some "o.jpg", status := "cancelled" }

def storeC2 : Store := [("api-c1", jobCancelled)]

/-- A queued job whose record is present while a stale id "api-gone" is
also sitting in the lane queue (C3's fixture). -/
def jobB : Job :=
  { create_job_record "api-b1" "u3" "photo_photo_gpen" 0 with
      source_path := some "s.jpg", target_path := some "t.jpg",
      output_path := some "o.jpg", status := "queued" }

def storeC3 : Store := [("api-b1", jobB)]

/-- A queued job subscribed to "completed" only (C8's fixture). -/
def jobW (status : String) : Job :=
  { create_job_record "api-w1" "u8" "photo_photo_gpen" 0 with
      status := status, webhook_url := some "http://cb.example/hook",
      webhook_events := some ["completed"] }

/-- A queued job for the C6 witness. -/
def jobQ : Job :=
  { create_job_record "api-q1" "u6" "photo_photo_gpen" 0 with
      source_path := some "s.jpg", target_path := some "t.jpg",
      output_path := some "o.jpg", status := "queued" }

def storeQ : Store := [("api-q1", jobQ)]

/-- Two queued jobs of one lane, in enqueue order (C1's fixture). -/
def jobL1 : Job :=
  { create_job_record "api-l1" "u1" "photo_photo_gpen" 0 with status := "queued" }

def jobL2 : Job :=
  { create_job_record "api-l2" "u1" "photo_photo_gpen" 0 with status := "queued" }

def storeL : Store := [("api-l1", jobL1), ("api-l2", jobL2)]

/- ==== theorems ==== -/

theorem storeFind_storePut (s : Store) (jb : Job) (k : String) :
    storeFind (storePut s jb) k = if k = jb.job_id then some jb else storeFind s k := by
  induction s with
  | nil =>
    by_cases h : k = jb.job_id
    · subst h; simp [storePut, storeFind, List.find?]
    · have h2 : ¬ jb.job_id = k := fun hh => h hh.symm
      simp [storePut, storeFind, List.find?, h, h2]
  | cons x rest ih =>
    by_cases hx : x.1 = jb.job_id
    · by_cases h : k = jb.job_id
      · subst h
        simp [storePut, storeFind, List.find?, hx]
      · have h2 : ¬ jb.job_id = k := fun hh => h hh.symm
        have h3 : ¬ x.1 = k := by rw [hx]; exact h2
        simp [storePut, storeFind, List.find?, hx, h, h2, h3]
    · by_cases hk : x.1 = k
      · have h : ¬ k = jb.job_id := fun hh => hx (hk.trans hh)
        simp [storePut, storeFind, List.find?, hx, hk, h]
      · simp only [storePut, if_neg hx]
        simp only [storeFind, List.find?] at ih ⊢
        simp [hk, ih]

theorem storePut_wf (s : Store) (jb : Job) :
    (∀ e ∈ s, (e.2).job_id = e.1) → ∀ e ∈ storePut s jb, (e.2).job_id = e.1 := by
  induction s with
  | nil => intro _; simp [storePut]
  | cons x rest ih =>
    intro hwf e he'
    by_cases hx : x.1 = jb.job_id
    · simp only [storePut, if_pos hx] at he'
      rcases List.mem_cons.mp he' with h | h
      · subst h; rfl
      · exact hwf e (List.mem_cons_of_mem _ h)
    · simp only [storePut, if_neg hx] at he'
      rcases List.mem_cons.mp he' with h | h
      · rw [h]; exact hwf x (List.mem_cons_self _ _)
      · exact ih (fun y hy => hwf y (List.mem_cons_of_mem _ hy)) e h

/-- C10. For every job-scoped operation, a caller whose id differs from
the record's `owner_id` gets 403 Forbidden and the store is unchanged:
each handler runs `assert_owner` right after `load_job`, before any
mutation. -/
theorem C10_owner_mismatch_forbidden (store : Store) (job_id user_id : String) (job : Job)
    (suffix dest url out_path : String) (tooLong file_exists : Bool)
    (events : Option (List String)) (rfn : Option Int) (now : Nat)
    (hload : load_job store job_id = .ok job)
    (hown : job.owner_id ≠ user_id) :
    upload_source store job_id user_id suffix dest now = (store, .error ⟨403, "Forbidden"⟩) ∧
    upload_target store job_id user_id suffix dest tooLong now = (store, .error ⟨403, "Forbidden"⟩) ∧
    submit_job store job_id user_id rfn out_path now = (store, .error ⟨403, "Forbidden"⟩) ∧
    set_webhook store job_id user_id url events now = (store, .error ⟨403, "Forbidden"⟩) ∧
    get_job store job_id user_id = (store, .error ⟨403, "Forbidden"⟩) ∧
    job_events store job_id user_id = (store, .error ⟨403, "Forbidden"⟩) ∧
    get_result store job_id user_id file_exists = (store, .error ⟨403, "Forbidden"⟩) ∧
    cancel_job store job_id user_id now = (store, .error ⟨403, "Forbidden"⟩) := by
  have ha : assert_owner job user_id = .error ⟨403, "Forbidden"⟩ := by
    simp [assert_owner, hown]
  refine ⟨?_, ?_, ?_, ?_, ?_, ?_, ?_, ?_⟩ <;>
    simp [upload_source, upload_target, submit_job, set_webhook, get_job, job_events,
          get_result, cancel_job, hload, ha]

theorem C10_owner_mismatch_forbidden_witness :
    upload_source storeA "api-a1" "bob" ".jpg" "d.jpg" 1 = (storeA, .error ⟨403, "Forbidden"⟩) ∧
    cancel_job storeA "api-a1" "bob" 1 = (storeA, .error ⟨403, "Forbidden"⟩) := by
  have h := C10_owner_mismatch_forbidden storeA "api-a1" "bob" jobA ".jpg" "d.jpg"
    "http://cb" "o.mp4" false false none none 1 (by decide) (by decide)
  exact ⟨h.1, h.2.2.2.2.2.2.2⟩

/-- C9 counterexample. A request whose mode is outside the enumerated
set is NOT rejected: `create_job` silently replaces the mode with
`DEFAULT_MODE` and creates (and persists) the job record — there is no
validation error before enqueue for a bad mode. -/
theorem C9_bad_mode_not_rejected :
    (create_job [] "no_such_mode" "u9" "api-m1" 5).2.mode = DEFAULT_MODE ∧
    (create_job [] "no_such_mode" "u9" "api-m1" 5).2.status = "waiting_source" ∧
    storeFind (create_job [] "no_such_mode" "u9" "api-m1" 5).1 "api-m1" =
      some { create_job_record "api-m1" "u9" DEFAULT_MODE 5 with updated_at := 5 } := by
  decide

/-- C9 as amended: a bad mode is silently replaced by the default mode
(no rejection), while a target whose detected kind mismatches the job's
`target_kind` — or whose extension is recognised as neither image nor
video — is rejected with a 400 validation error before the job record
or store is touched. -/
theorem C9_validation_amended (store : Store) (job_id user_id suffix dest : String)
    (job : Job) (tooLong : Bool) (now : Nat)
    (hload : load_job store job_id = .ok job)
    (howner : job.owner_id = user_id) :
    (∀ mode new_id, mode ∉ ALLOWED_MODES →
      (create_job store mode user_id new_id now).2.mode = DEFAULT_MODE) ∧
    (suffix ∈ ALLOWED_IMAGE_EXT → job.target_kind ≠ "image" →
      upload_target store job_id user_id suffix dest tooLong now =
        (store, .error ⟨400, "Target type must be " ++ job.target_kind⟩)) ∧
    (suffix ∈ ALLOWED_VIDEO_EXT → job.target_kind ≠ "video" →
      upload_target store job_id user_id suffix dest tooLong now =
        (store, .error ⟨400, "Target type must be " ++ job.target_kind⟩)) ∧
    (suffix ∉ ALLOWED_IMAGE_EXT → suffix ∉ ALLOWED_VIDEO_EXT →
      upload_target store job_id user_id suffix dest tooLong now =
        (store, .error ⟨400, "Target must be jpg/jpeg/png or mp4/mov"⟩)) := by
  have ha : assert_owner job user_id = .ok () := by
    simp [assert_owner, howner]
  refine ⟨?_, ?_, ?_, ?_⟩
  · intro mode new_id hmode
    simp [create_job, hmode, create_job_record]
  · intro hs hk
    have hk2 : ¬ "image" = job.target_kind := fun hh => hk hh.symm
    have hsv : suffix ∉ ALLOWED_VIDEO_EXT := by
      fin_cases hs <;> decide
    simp [upload_target, hload, ha, hs, hsv, hk2]
  · intro hs hk
    have hk2 : ¬ "video" = job.target_kind := fun hh => hk hh.symm
    have hsi : suffix ∉ ALLOWED_IMAGE_EXT := by
      fin_cases hs <;> decide
    simp [upload_target, hload, ha, hs, hsi, hk2]
  · intro hs hv
    simp [upload_target, hload, ha, hs, hv]

theorem C9_validation_amended_witness :
    (create_job storeA "no_such_mode" "alice" "api-m2" 3).2.mode = DEFAULT_MODE ∧
    upload_target storeA "api-a1" "alice" ".mp4" "d.mp4" false 3 =
      (storeA, .error ⟨400, "Target type must be " ++ jobA.target_kind⟩) := by
  have h := C9_validation_amended storeA "api-a1" "alice" ".mp4" "d.mp4" jobA false 3
    (by decide) (by decide)
  exact ⟨h.1 "no_such_mode" "api-m2" (by decide), h.2.2.1 (by decide) (by decide)⟩

/-- C4 counterexample. Right after a successful submit the persisted
record has `output_path` set while `status = "queued"` (not
`completed`): `submit_job` stamps `output_path` before enqueueing, so
"output_path is non-null only when status = completed" fails. -/
theorem C4_output_path_set_while_queued :
    (submit_job storeReady "api-r1" "u4" none "out-r1.mp4" 7).2 = .ok (jobSubmitted, submitEvs) ∧
    jobSubmitted.output_path = some "out-r1.mp4" ∧
    jobSubmitted.status = "queued" ∧
    storeFind (submit_job storeReady "api-r1" "u4" none "out-r1.mp4" 7).1 "api-r1" =
      some jobSubmitted := by
  decide

/-- C4 as amended: `output_path` becomes non-null at successful
submission (while `status = "queued"`), and the client-visible result
flag `result_ready` is true only when `status = completed` with a
non-empty `output_path`. -/
theorem C4_output_path_amended (store : Store) (job_id user_id out_path : String)
    (rfn : Option Int) (now : Nat) (final : Job) (evs : List Ev)
    (hsubmit : (submit_job store job_id user_id rfn out_path now).2 = .ok (final, evs)) :
    final.output_path = some out_path ∧
    final.status = "queued" ∧
    (∀ j : Job, (job_to_response j).result_ready = true ↔
      (j.status = "completed" ∧ truthyStr j.output_path = true)) := by
  have key : final.output_path = some out_path ∧ final.status = "queued" := by
    simp only [submit_job] at hsubmit
    cases hl : load_job store job_id with
    | error e => simp [hl] at hsubmit
    | ok job =>
      simp only [hl] at hsubmit
      cases ho : assert_owner job user_id with
      | error e => simp [ho] at hsubmit
      | ok u =>
        simp only [ho] at hsubmit
        split at hsubmit
        · simp at hsubmit
        · simp only [save_job, Except.ok.injEq, Prod.mk.injEq] at hsubmit
          rw [← hsubmit.1]
          simp
  refine ⟨key.1, key.2, fun j => ?_⟩
  simp [job_to_response]

theorem C4_output_path_amended_witness :
    jobSubmitted.output_path = some "out-r1.mp4" ∧
    jobSubmitted.status = "queued" ∧
    (∀ j : Job, (job_to_response j).result_ready = true ↔
      (j.status = "completed" ∧ truthyStr j.output_path = true)) :=
  C4_output_path_amended storeReady "api-r1" "u4" "out-r1.mp4" none 7 jobSubmitted submitEvs
    (by decide)

/-- C5 counterexample. `save_job` never performs the temporary-write-
then-rename the claim describes: its filesystem actions contain no
rename at all, only a direct in-place write of the final record file. -/
theorem C5_no_temp_rename :
    usesTempThenRename (save_job_fs 3 jobA) (job_path "api-a1") = false ∧
    save_job_fs 3 jobA =
      [.lockAcquire, .writeFile (job_path "api-a1") { jobA with updated_at := 3 }, .lockRelease] := by
  decide

/-- C5 as amended: every save is a single direct in-place write of the
whole record, performed while holding the store's global mutual-
exclusion guard — the same guard every load holds — so an in-process
reader never observes a partially written record; no temporary-location-
and-rename (atomic replace) is used. -/
theorem C5_save_guarded_direct_write (now : Nat) (job : Job) (jid : String) :
    save_job_fs now job =
      [.lockAcquire, .writeFile (job_path job.job_id) { job with updated_at := now }, .lockRelease] ∧
    guardedByLock (save_job_fs now job) = true ∧
    guardedByLock (load_job_fs jid) = true ∧
    usesTempThenRename (save_job_fs now job) (job_path job.job_id) = false := by
  refine ⟨rfl, ?_, ?_, ?_⟩
  · simp [guardedByLock, save_job_fs]
  · simp [guardedByLock, load_job_fs]
  · simp [usesTempThenRename, save_job_fs, renameOntoAfter]

/-- C2. The lane consumer does NOT check the persisted status of a
dequeued job: `worker` sets `status = "running"` unconditionally right
after `load_job`, so a job cancelled while queued is executed anyway —
the trace spawns the subprocess (`ran`), persists a `running` record,
and finishes `completed`, instead of skipping execution and leaving
`cancelled`. -/
theorem C2_cancelled_job_still_executed :
    (.ran "api-c1") ∈ outcomeEvents (workerIteration 1 storeC2 "api-c1" ⟨[], 0⟩) ∧
    (.saved { jobCancelled with status := "running", stage := none, progress := 0, updated_at := 1 })
      ∈ outcomeEvents (workerIteration 1 storeC2 "api-c1" ⟨[], 0⟩) ∧
    statusAfter (workerIteration 1 storeC2 "api-c1" ⟨[], 0⟩) "api-c1" = some "completed" := by
  decide

/- ---- the lane worker's event discipline ---- -/

theorem runLines_props (now : Nat) :
    ∀ (lines : List String) (s : Store) (job_id : String) (r : Job),
    storeFind s job_id = some r → r.job_id = job_id → r.status = "running" →
    (∀ e ∈ s, (e.2).job_id = e.1) →
    ∃ s' pevs r',
      runLines now s job_id lines = (s', pevs, none) ∧
      (∀ ev ∈ pevs, ∃ q : Job, ev = .saved q ∧ q.job_id = job_id ∧ q.status = "running") ∧
      storeFind s' job_id = some r' ∧ r'.job_id = job_id ∧ r'.status = "running" ∧
      (∀ k, k ≠ job_id → storeFind s' k = storeFind s k) ∧
      (∀ e ∈ s', (e.2).job_id = e.1) := by
  intro lines
  induction lines with
  | nil =>
    intro s job_id r hfind hid hst hwf
    exact ⟨s, [], r, rfl, by simp, hfind, hid, hst, fun k _ => rfl, hwf⟩
  | cons line rest ih =>
    intro s job_id r hfind hid hst hwf
    cases hp : parse_progress line with
    | none =>
      obtain ⟨s', pevs, r', h1, h2, h3, h4, h5, h6, h7⟩ := ih s job_id r hfind hid hst hwf
      exact ⟨s', pevs, r', by simp [runLines, hp, h1], h2, h3, h4, h5, h6, h7⟩
    | some sp =>
      obtain ⟨stage, pct⟩ := sp
      have hload : load_job s job_id = .ok r := by simp [load_job, hfind]
      have hsf : storeFind (storePut s { r with stage := some stage, progress := pct, updated_at := now }) job_id
          = some { r with stage := some stage, progress := pct, updated_at := now } := by
        rw [storeFind_storePut]; simp [hid]
      obtain ⟨s', pevs, r', h1, h2, h3, h4, h5, h6, h7⟩ :=
        ih (storePut s { r with stage := some stage, progress := pct, updated_at := now })
          job_id { r with stage := some stage, progress := pct, updated_at := now }
          hsf (by simpa using hid) (by simpa using hst)
          (storePut_wf s _ hwf)
      refine ⟨s', .saved { r with stage := some stage, progress := pct, updated_at := now } :: pevs, r',
        ?_, ?_, h3, h4, h5, ?_, h7⟩
      · simp [runLines, hp, hload, save_job, h1]
      · intro ev hev
        rcases List.mem_cons.mp hev with h | h
        · exact ⟨_, h, hid, hst⟩
        · exact h2 ev h
      · intro k hk
        rw [h6 k hk, storeFind_storePut]
        have : ¬ k = Job.job_id { r with stage := some stage, progress := pct, updated_at := now } := by
          simpa [hid] using hk
        rw [if_neg this]

theorem runningSetFrom_append (acc : List String) (a b : List Ev) :
    runningSetFrom acc (a ++ b) = runningSetFrom (runningSetFrom acc a) b := by
  simp [runningSetFrom, List.foldl_append]

theorem runningStartsFrom_append (acc : List String) (a b : List Ev) :
    runningStartsFrom acc (a ++ b) = runningStartsFrom (runningStartsFrom acc a) b := by
  simp [runningStartsFrom, List.foldl_append]

theorem runningSetFrom_stable (j : String) :
    ∀ (evs : List Ev) (acc : List String),
    (∀ ev ∈ evs, ∃ q : Job, ev = .saved q ∧ q.job_id = j ∧ q.status = "running") →
    j ∈ acc → runningSetFrom acc evs = acc := by
  intro evs
  induction evs with
  | nil => intro acc _ _; rfl
  | cons ev rest ih =>
    intro acc hall hj
    obtain ⟨q, hev, hqid, hqst⟩ := hall ev (List.mem_cons_self _ _)
    subst hev
    have hmem : q.job_id ∈ acc := by rw [hqid]; exact hj
    have : runningSetFrom acc (Ev.saved q :: rest) = runningSetFrom acc rest := by
      simp [runningSetFrom, List.foldl, hqst, hmem]
    rw [this]
    exact ih acc (fun e he => hall e (List.mem_cons_of_mem _ he)) hj

theorem runningStartsFrom_stable (j : String) :
    ∀ (evs : List Ev) (acc : List String),
    (∀ q : Job, .saved q ∈ evs → q.job_id = j) →
    j ∈ acc → runningStartsFrom acc evs = acc := by
  intro evs
  induction evs with
  | nil => intro acc _ _; rfl
  | cons ev rest ih =>
    intro acc hall hj
    have hstep : runningStartsFrom acc (ev :: rest) = runningStartsFrom acc rest := by
      cases ev with
      | saved q =>
        have hmem : q.job_id ∈ acc := by
          rw [hall q (List.mem_cons_self _ _)]; exact hj
        simp [runningStartsFrom, List.foldl, hmem]
      | notified q e => simp [runningStartsFrom, List.foldl]
      | ran i => simp [runningStartsFrom, List.foldl]
    rw [hstep]
    exact ih acc (fun q hq => hall q (List.mem_cons_of_mem _ hq)) hj

theorem runningSetFrom_single (j : String) :
    ∀ (evs : List Ev) (acc : List String),
    (∀ q : Job, .saved q ∈ evs → q.job_id = j) →
    (acc = [] ∨ acc = [j]) →
    (runningSetFrom acc evs = [] ∨ runningSetFrom acc evs = [j]) := by
  intro evs
  induction evs with
  | nil => intro acc _ h; simpa [runningSetFrom] using h
  | cons ev rest ih =>
    intro acc hall hacc
    have hrest : ∀ q : Job, .saved q ∈ rest → q.job_id = j :=
      fun q hq => hall q (List.mem_cons_of_mem _ hq)
    cases ev with
    | notified q e =>
      have hstep : runningSetFrom acc (Ev.notified q e :: rest) = runningSetFrom acc rest := by
        simp [runningSetFrom, List.foldl]
      rw [hstep]; exact ih acc hrest hacc
    | ran i =>
      have hstep : runningSetFrom acc (Ev.ran i :: rest) = runningSetFrom acc rest := by
        simp [runningSetFrom, List.foldl]
      rw [hstep]; exact ih acc hrest hacc
    | saved q =>
      have hqid : q.job_id = j := hall q (List.mem_cons_self _ _)
      have hstep : runningSetFrom acc (Ev.saved q :: rest)
          = runningSetFrom
              (if q.status = "running" then
                (if q.job_id ∈ acc then acc else acc ++ [q.job_id])
               else acc.erase q.job_id) rest := by
        simp only [runningSetFrom, List.foldl]
        congr 1
        by_cases hr : q.status = "running" <;> simp [hr]
      rw [hstep]
      refine ih _ hrest ?_
      rcases hacc with h | h <;> subst h <;>
        by_cases hr : q.status = "running" <;>
          simp [hr, hqid, List.erase_cons_head]

theorem runningSetFrom_single_le (j : String) (evs : List Ev)
    (hall : ∀ q : Job, .saved q ∈ evs → q.job_id = j) :
    (runningSetFrom [] evs).length ≤ 1 := by
  rcases runningSetFrom_single j evs [] hall (Or.inl rfl) with h | h <;> simp [h]

theorem workerIteration_shape (now : Nat) (store : Store) (job_id : String) (beh : ProcBehavior)
    (job : Job)
    (hload : load_job store job_id = .ok job)
    (hid : job.job_id = job_id)
    (hwf : ∀ e ∈ store, (e.2).job_id = e.1) :
    ∃ s' evs r',
      workerIteration now store job_id beh = .iterated s' evs ∧
      (∀ q : Job, .saved q ∈ evs → q.job_id = job_id) ∧
      runningSetFrom [] evs = [] ∧
      (∀ acc : List String, job_id ∉ acc → runningStartsFrom acc evs = acc ++ [job_id]) ∧
      storeFind s' job_id = some r' ∧ r'.job_id = job_id ∧
      (r'.status = "completed" ∨ r'.status = "failed") ∧
      (∀ k, k ≠ job_id → storeFind s' k = storeFind store k) ∧
      (∀ e ∈ s', (e.2).job_id = e.1) ∧
      (beh.exitCode ≠ 0 →
        r'.status = "failed" ∧ r'.error = some (calledProcessErrorStr beh.exitCode) ∧
        notifyCount evs "failed" = 1) := by
  have hwf1 := storePut_wf store
    { job with status := "running", stage := none, progress := 0, updated_at := now } hwf
  have hsf1 : storeFind
      (storePut store { job with status := "running", stage := none, progress := 0, updated_at := now }) job_id
      = some { job with status := "running", stage := none, progress := 0, updated_at := now } := by
    rw [storeFind_storePut]; simp [hid]
  obtain ⟨s2, pevs, rr, hr1, hr2, hr3, hr4, hr5, hr6, hr7⟩ :=
    runLines_props now beh.outputLines
      (storePut store { job with status := "running", stage := none, progress := 0, updated_at := now })
      job_id { job with status := "running", stage := none, progress := 0, updated_at := now }
      hsf1 (by simpa using hid) rfl hwf1
  have hallsaved : ∀ q : Job, Ev.saved q ∈ pevs → q.job_id = job_id ∧ q.status = "running" := by
    intro q hq
    obtain ⟨q', hq', hprops⟩ := hr2 _ hq
    cases hq'; exact hprops
  by_cases hc : beh.exitCode = 0
  · -- success: the worker persists "completed" and fans out "completed"
    have hrun : run_facefusion_job now
        (storePut store { job with status := "running", stage := none, progress := 0, updated_at := now })
        job_id beh = (s2, pevs, none) := by
      simp [run_facefusion_job, hr1, hc]
    refine ⟨storePut s2 { job with status := "completed", stage := some "completed", progress := 100, updated_at := now },
      [.saved { job with status := "running", stage := none, progress := 0, updated_at := now },
       .notified { job with status := "running", stage := none, progress := 0, updated_at := now } "running",
       .ran job_id] ++ pevs ++
      [.saved { job with status := "completed", stage := some "completed", progress := 100, updated_at := now },
       .notified { job with status := "completed", stage := some "completed", progress := 100, updated_at := now } "completed"],
      { job with status := "completed", stage := some "completed", progress := 100, updated_at := now },
      ?_, ?_, ?_, ?_, ?_, by simpa using hid, Or.inl rfl, ?_, storePut_wf s2 _ hr7,
      fun h => absurd hc h⟩
    · simp [workerIteration, hload, save_job, hrun]
    · intro q hq
      simp only [List.mem_append, List.mem_cons, List.not_mem_nil, or_false] at hq
      rcases hq with ((h | h | h) | h) | (h | h)
      · cases h; simpa using hid
      · exact absurd h (by simp)
      · exact absurd h (by simp)
      · exact (hallsaved q h).1
      · cases h; simpa using hid
      · exact absurd h (by simp)
    · rw [runningSetFrom_append, runningSetFrom_append]
      have h1 : runningSetFrom []
          [Ev.saved { job with status := "running", stage := none, progress := 0, updated_at := now },
           Ev.notified { job with status := "running", stage := none, progress := 0, updated_at := now } "running",
           Ev.ran job_id] = [job_id] := by
        simp [runningSetFrom, List.foldl, hid]
      have h2 : runningSetFrom [job_id] pevs = [job_id] :=
        runningSetFrom_stable job_id pevs [job_id] hr2 (by simp)
      rw [h1, h2]
      simp [runningSetFrom, List.foldl, hid, List.erase_cons_head]
    · intro acc hacc
      rw [runningStartsFrom_append, runningStartsFrom_append]
      have h1 : runningStartsFrom acc
          [Ev.saved { job with status := "running", stage := none, progress := 0, updated_at := now },
           Ev.notified { job with status := "running", stage := none, progress := 0, updated_at := now } "running",
           Ev.ran job_id] = acc ++ [job_id] := by
        simp [runningStartsFrom, List.foldl, hid, hacc]
      have h2 : runningStartsFrom (acc ++ [job_id]) pevs = acc ++ [job_id] :=
        runningStartsFrom_stable job_id pevs (acc ++ [job_id])
          (fun q hq => (hallsaved q hq).1) (by simp)
      rw [h1, h2]
      apply runningStartsFrom_stable job_id _ _ ?_ (by simp)
      intro q hq
      simp only [List.mem_cons, List.not_mem_nil, or_false] at hq
      rcases hq with h | h
      · cases h; simpa using hid
      · exact absurd h (by simp)
    · rw [storeFind_storePut]; simp [hid]
    · intro k hk
      rw [storeFind_storePut]
      have hk2 : ¬ k = Job.job_id { job with status := "completed", stage := some "completed", progress := 100, updated_at := now } := by
        simpa [hid] using hk
      rw [if_neg hk2, hr6 k hk, storeFind_storePut]
      have hk3 : ¬ k = Job.job_id { job with status := "running", stage := none, progress := 0, updated_at := now } := by
        simpa [hid] using hk
      rw [if_neg hk3]
  · -- failure: CalledProcessError is caught; "failed" is persisted and fanned out once
    have hrun : run_facefusion_job now
        (storePut store { job with status := "running", stage := none, progress := 0, updated_at := now })
        job_id beh = (s2, pevs, some (.exitError beh.exitCode)) := by
      simp [run_facefusion_job, hr1, hc]
    refine ⟨storePut s2 { job with status := "failed", stage := some "failed", progress := 0, error := some (calledProcessErrorStr beh.exitCode), updated_at := now },
      [.saved { job with status := "running", stage := none, progress := 0, updated_at := now },
       .notified { job with status := "running", stage := none, progress := 0, updated_at := now } "running",
       .ran job_id] ++ pevs ++
      [.saved { job with status := "failed", stage := some "failed", progress := 0, error := some (calledProcessErrorStr beh.exitCode), updated_at := now },
       .notified { job with status := "failed", stage := some "failed", progress := 0, error := some (calledProcessErrorStr beh.exitCode), updated_at := now } "failed"],
      { job with status := "failed", stage := some "failed", progress := 0, error := some (calledProcessErrorStr beh.exitCode), updated_at := now },
      ?_, ?_, ?_, ?_, ?_, by simpa using hid, Or.inr rfl, ?_, storePut_wf s2 _ hr7, ?_⟩
    · simp [workerIteration, hload, save_job, hrun, runErrStr]
    · intro q hq
      simp only [List.mem_append, List.mem_cons, List.not_mem_nil, or_false] at hq
      rcases hq with ((h | h | h) | h) | (h | h)
      · cases h; simpa using hid
      · exact absurd h (by simp)
      · exact absurd h (by simp)
      · exact (hallsaved q h).1
      · cases h; simpa using hid
      · exact absurd h (by simp)
    · rw [runningSetFrom_append, runningSetFrom_append]
      have h1 : runningSetFrom []
          [Ev.saved { job with status := "running", stage := none, progress := 0, updated_at := now },
           Ev.notified { job with status := "running", stage := none, progress := 0, updated_at := now } "running",
           Ev.ran job_id] = [job_id] := by
        simp [runningSetFrom, List.foldl, hid]
      have h2 : runningSetFrom [job_id] pevs = [job_id] :=
        runningSetFrom_stable job_id pevs [job_id] hr2 (by simp)
      rw [h1, h2]
      simp [runningSetFrom, List.foldl, hid, List.erase_cons_head]
    · intro acc hacc
      rw [runningStartsFrom_append, runningStartsFrom_append]
      have h1 : runningStartsFrom acc
          [Ev.saved { job with status := "running", stage := none, progress := 0, updated_at := now },
           Ev.notified { job with status := "running", stage := none, progress := 0, updated_at := now } "running",
           Ev.ran job_id] = acc ++ [job_id] := by
        simp [runningStartsFrom, List.foldl, hid, hacc]
      have h2 : runningStartsFrom (acc ++ [job_id]) pevs = acc ++ [job_id] :=
        runningStartsFrom_stable job_id pevs (acc ++ [job_id])
          (fun q hq => (hallsaved q hq).1) (by simp)
      rw [h1, h2]
      apply runningStartsFrom_stable job_id _ _ ?_ (by simp)
      intro q hq
      simp only [List.mem_cons, List.not_mem_nil, or_false] at hq
      rcases hq with h | h
      · cases h; simpa using hid
      · exact absurd h (by simp)
    · rw [storeFind_storePut]; simp [hid]
    · intro k hk
      rw [storeFind_storePut]
      have hk2 : ¬ k = Job.job_id { job with status := "failed", stage := some "failed", progress := 0, error := some (calledProcessErrorStr beh.exitCode), updated_at := now } := by
        simpa [hid] using hk
      rw [if_neg hk2, hr6 k hk, storeFind_storePut]
      have hk3 : ¬ k = Job.job_id { job with status := "running", stage := none, progress := 0, updated_at := now } := by
        simpa [hid] using hk
      rw [if_neg hk3]
    · intro _
      refine ⟨rfl, rfl, ?_⟩
      simp only [notifyCount, List.countP_append]
      have hp : pevs.countP
          (fun ev => match ev with | .notified _ e => e == "failed" | _ => false) = 0 := by
        apply List.countP_eq_zero.mpr
        intro ev hev
        obtain ⟨q', hq', _⟩ := hr2 _ hev
        subst hq'; simp
      rw [hp]
      simp [List.countP, List.countP.go]

theorem storeFind_wf (s : Store) (k : String) (r : Job)
    (h : storeFind s k = some r) (hwf : ∀ e ∈ s, (e.2).job_id = e.1) : r.job_id = k := by
  unfold storeFind at h
  cases hf : s.find? (fun e => decide (e.1 = k)) with
  | none => rw [hf] at h; simp at h
  | some e =>
    rw [hf] at h
    simp only [Option.some.injEq] at h
    have h1 := List.find?_some hf
    have h2 := List.mem_of_find?_eq_some hf
    have h3 : e.1 = k := by simpa using h1
    rw [← h, hwf e h2, h3]

/-- C3 counterexample. An exception in the load step is not caught: with
a stale id "api-gone" at the head of the queue (its record file deleted
after enqueue), `load_job` raises before the `try`, the consumer task
dies, and the following queued job "api-b1" is never executed — the lane
does not remain available. -/
theorem C3_load_exception_kills_lane :
    laneRun 1 storeC3 ["api-gone", "api-b1"] (fun _ => ⟨[], 0⟩) = (storeC3, [], false) ∧
    isCrashed (workerIteration 1 storeC3 "api-gone" ⟨[], 0⟩) = true ∧
    (.ran "api-b1") ∉ (laneRun 1 storeC3 ["api-gone", "api-b1"] (fun _ => ⟨[], 0⟩)).2.1 := by
  decide

/-- C3 as amended: once the dequeued job's record loads, every exception
of the run-and-complete sequence is caught at the loop boundary and
converted into a `failed` transition plus a `failed` fan-out (the
iteration never crashes and always persists a terminal status); only an
exception in the `load_job` step itself — which sits before the `try` —
escapes and terminates the consumer loop. -/
theorem C3_exceptions_caught_after_load (now : Nat) (store : Store) (job_id : String)
    (beh : ProcBehavior) (job : Job)
    (hload : load_job store job_id = .ok job)
    (hid : job.job_id = job_id)
    (hwf : ∀ e ∈ store, (e.2).job_id = e.1) :
    isCrashed (workerIteration now store job_id beh) = false ∧
    (statusAfter (workerIteration now store job_id beh) job_id = some "completed" ∨
     statusAfter (workerIteration now store job_id beh) job_id = some "failed") ∧
    (beh.exitCode ≠ 0 →
      notifyCount (outcomeEvents (workerIteration now store job_id beh)) "failed" = 1) := by
  obtain ⟨s', evs, r', h1, h2, h3, h4, h5, h6, h7, h8, h9, h10⟩ :=
    workerIteration_shape now store job_id beh job hload hid hwf
  rw [h1]
  refine ⟨rfl, ?_, ?_⟩
  · rcases h7 with h | h
    · left; simp [statusAfter, h5, h]
    · right; simp [statusAfter, h5, h]
  · intro hc
    simpa [outcomeEvents] using (h10 hc).2.2

theorem C3_exceptions_caught_after_load_witness :
    isCrashed (workerIteration 2 storeC3 "api-b1" ⟨["processing: 10%"], 1⟩) = false ∧
    (statusAfter (workerIteration 2 storeC3 "api-b1" ⟨["processing: 10%"], 1⟩) "api-b1" = some "completed" ∨
     statusAfter (workerIteration 2 storeC3 "api-b1" ⟨["processing: 10%"], 1⟩) "api-b1" = some "failed") ∧
    ((⟨["processing: 10%"], 1⟩ : ProcBehavior).exitCode ≠ 0 →
      notifyCount (outcomeEvents (workerIteration 2 storeC3 "api-b1" ⟨["processing: 10%"], 1⟩)) "failed" = 1) :=
  C3_exceptions_caught_after_load 2 storeC3 "api-b1" ⟨["processing: 10%"], 1⟩ jobB
    (by decide) (by decide) (by decide)

/-- C6. A nonzero engine exit code makes `run_facefusion_job` raise
`CalledProcessError` carrying that code; the worker catches it,
persists `status = "failed"` with the non-empty `str(exc)` in `error`,
and fans out the `failed` event exactly once. -/
theorem C6_nonzero_exit_failed (now : Nat) (store : Store) (job_id : String)
    (lines : List String) (code : Int) (job : Job)
    (hload : load_job store job_id = .ok job)
    (hid : job.job_id = job_id)
    (hwf : ∀ e ∈ store, (e.2).job_id = e.1)
    (hcode : code ≠ 0) :
    (∃ s2 pevs, run_facefusion_job now
        (save_job now { job with status := "running", stage := none, progress := 0 } store).1
        job_id ⟨lines, code⟩ = (s2, pevs, some (.exitError code))) ∧
    statusAfter (workerIteration now store job_id ⟨lines, code⟩) job_id = some "failed" ∧
    errorAfter (workerIteration now store job_id ⟨lines, code⟩) job_id =
      some (calledProcessErrorStr code) ∧
    calledProcessErrorStr code ≠ "" ∧
    notifyCount (outcomeEvents (workerIteration now store job_id ⟨lines, code⟩)) "failed" = 1 := by
  have hwf1 := storePut_wf store
    { job with status := "running", stage := none, progress := 0, updated_at := now } hwf
  have hsf1 : storeFind
      (storePut store { job with status := "running", stage := none, progress := 0, updated_at := now }) job_id
      = some { job with status := "running", stage := none, progress := 0, updated_at := now } := by
    rw [storeFind_storePut]; simp [hid]
  obtain ⟨s2, pevs, rr, hr1, hr2, hr3, hr4, hr5, hr6, hr7⟩ :=
    runLines_props now lines
      (storePut store { job with status := "running", stage := none, progress := 0, updated_at := now })
      job_id { job with status := "running", stage := none, progress := 0, updated_at := now }
      hsf1 (by simpa using hid) rfl hwf1
  obtain ⟨s', evs, r', h1, h2, h3, h4, h5, h6, h7, h8, h9, h10⟩ :=
    workerIteration_shape now store job_id ⟨lines, code⟩ job hload hid hwf
  obtain ⟨hf1, hf2, hf3⟩ := h10 hcode
  have hne : calledProcessErrorStr code ≠ "" := by
    intro h
    have h2 := congrArg String.length h
    rw [calledProcessErrorStr] at h2
    simp [String.length_append] at h2
    exact absurd h2.1.1 (by decide)
  refine ⟨⟨s2, pevs, ?_⟩, ?_, ?_, hne, ?_⟩
  · simp [run_facefusion_job, save_job, hr1, hcode]
  · simp [h1, statusAfter, h5, hf1]
  · simp [h1, errorAfter, h5, hf2]
  · simpa [h1, outcomeEvents] using hf3

theorem C6_nonzero_exit_failed_witness :
    (∃ s2 pevs, run_facefusion_job 2
        (save_job 2 { jobQ with status := "running", stage := none, progress := 0 } storeQ).1
        "api-q1" ⟨["processing: 10%"], 1⟩ = (s2, pevs, some (.exitError 1))) ∧
    statusAfter (workerIteration 2 storeQ "api-q1" ⟨["processing: 10%"], 1⟩) "api-q1" = some "failed" ∧
    errorAfter (workerIteration 2 storeQ "api-q1" ⟨["processing: 10%"], 1⟩) "api-q1" =
      some (calledProcessErrorStr 1) ∧
    calledProcessErrorStr 1 ≠ "" ∧
    notifyCount (outcomeEvents (workerIteration 2 storeQ "api-q1" ⟨["processing: 10%"], 1⟩)) "failed" = 1 :=
  C6_nonzero_exit_failed 2 storeQ "api-q1" ["processing: 10%"] 1 jobQ
    (by decide) (by decide) (by decide) (by decide)

theorem laneRun_props (now : Nat) :
    ∀ (queue : List String) (store : Store) (beh : String → ProcBehavior),
    (∀ e ∈ store, (e.2).job_id = e.1) →
    (∀ id ∈ queue, (storeFind store id).isSome = true) →
    queue.Nodup →
    ∃ s' evs,
      laneRun now store queue beh = (s', evs, true) ∧
      (∀ acc : List String, (∀ id ∈ queue, id ∉ acc) →
        runningStartsFrom acc evs = acc ++ queue) ∧
      runningSetFrom [] evs = [] ∧
      (∀ n : Nat, (runningSetFrom [] (evs.take n)).length ≤ 1) ∧
      (∀ k, k ∉ queue → storeFind s' k = storeFind store k) := by
  intro queue
  induction queue with
  | nil =>
    intro store beh hwf hpres hnd
    refine ⟨store, [], rfl, ?_, rfl, ?_, fun k _ => rfl⟩
    · intro acc _; simp [runningStartsFrom]
    · intro n; simp [runningSetFrom]
  | cons j rest ih =>
    intro store beh hwf hpres hnd
    have hj : (storeFind store j).isSome = true := hpres j (List.mem_cons_self _ _)
    obtain ⟨job, hjob⟩ := Option.isSome_iff_exists.mp hj
    have hload : load_job store j = .ok job := by simp [load_job, hjob]
    have hid : job.job_id = j := storeFind_wf store j job hjob hwf
    obtain ⟨s1, evs1, r1, g1, g2, g3, g4, g5, g6, g7, g8, g9, g10⟩ :=
      workerIteration_shape now store j (beh j) job hload hid hwf
    have hjrest : j ∉ rest := (List.nodup_cons.mp hnd).1
    have hpres1 : ∀ id ∈ rest, (storeFind s1 id).isSome = true := by
      intro id hidr
      have hne : id ≠ j := fun h => hjrest (h ▸ hidr)
      rw [g8 id hne]
      exact hpres id (List.mem_cons_of_mem _ hidr)
    obtain ⟨s2, evs2, k1, k2, k3, k4, k5⟩ :=
      ih s1 beh g9 hpres1 (List.nodup_cons.mp hnd).2
    refine ⟨s2, evs1 ++ evs2, ?_, ?_, ?_, ?_, ?_⟩
    · simp [laneRun, g1, k1]
    · intro acc hacc
      rw [runningStartsFrom_append]
      rw [g4 acc (hacc j (List.mem_cons_self _ _))]
      rw [k2 (acc ++ [j]) ?_]
      · simp
      · intro id hidr
        simp only [List.mem_append, List.mem_singleton]
        rintro (h | h)
        · exact hacc id (List.mem_cons_of_mem _ hidr) h
        · exact hjrest (h ▸ hidr)
    · rw [runningSetFrom_append, g3, k3]
    · intro n
      rw [List.take_append_eq_append_take, runningSetFrom_append]
      by_cases hn : n ≤ evs1.length
      · have h0 : n - evs1.length = 0 := Nat.sub_eq_zero_of_le hn
        rw [h0]
        simp only [List.take_zero]
        have : runningSetFrom (runningSetFrom [] (evs1.take n)) [] =
            runningSetFrom [] (evs1.take n) := rfl
        rw [this]
        exact runningSetFrom_single_le j _ (fun q hq => g2 q (List.mem_of_mem_take hq))
      · have hlen : evs1.length ≤ n := Nat.le_of_not_le hn
        rw [List.take_of_length_le hlen, g3]
        exact k4 (n - evs1.length)
    · intro k hk
      have hk1 : k ∉ rest := fun h => hk (List.mem_cons_of_mem _ h)
      have hk2 : k ≠ j := fun h => hk (h ▸ List.mem_cons_self _ _)
      rw [k5 k hk1, g8 k hk2]

/-- C1. Per lane: the single consumer drains its FIFO queue
sequentially, so (with every queued record present and ids unique) the
lane stays alive, the order of queued-to-running transitions in the
persisted-write trace equals the enqueue order, and at every instant of
the trace at most one job of the lane has persisted `status =
"running"`. -/
theorem C1_lane_fifo_and_mutex (now : Nat) (store : Store) (queue : List String)
    (beh : String → ProcBehavior)
    (hwf : ∀ e ∈ store, (e.2).job_id = e.1)
    (hpres : ∀ id ∈ queue, (storeFind store id).isSome = true)
    (hnd : queue.Nodup) :
    ∃ s' evs,
      laneRun now store queue beh = (s', evs, true) ∧
      runningStarts evs = queue ∧
      (∀ n : Nat, (runningSet (evs.take n)).length ≤ 1) := by
  obtain ⟨s', evs, h1, h2, h3, h4, h5⟩ := laneRun_props now queue store beh hwf hpres hnd
  refine ⟨s', evs, h1, ?_, ?_⟩
  · simpa [runningStarts] using h2 [] (by simp)
  · intro n; simpa [runningSet] using h4 n

theorem C1_lane_fifo_and_mutex_witness :
    ∃ s' evs,
      laneRun 1 storeL ["api-l1", "api-l2"] (fun _ => ⟨[], 0⟩) = (s', evs, true) ∧
      runningStarts evs = ["api-l1", "api-l2"] ∧
      (∀ n : Nat, (runningSet (evs.take n)).length ≤ 1) :=
  C1_lane_fifo_and_mutex 1 storeL ["api-l1", "api-l2"] (fun _ => ⟨[], 0⟩)
    (by decide) (by decide) (by decide)

/-- C8. `send_webhook`: no registered URL means no outbound push; with a
URL, a push happens exactly when the event is in the job's allow-list
(`webhook_events`, defaulting to all four events when unset or empty);
and over a queued/running/completed lifecycle a job subscribed to
`["completed"]` produces exactly one push, for the `completed` event. -/
theorem C8_webhook_allow_list :
    (∀ (job : Job) (event : String), job.webhook_url = none → send_webhook job event = none) ∧
    (∀ (job : Job) (event : String), (send_webhook job event).isSome = true ↔
       (truthyStr job.webhook_url = true ∧ event ∈ webhookAllowList job)) ∧
    (∀ (j0 j1 j2 : Job) (url : String),
       j0.webhook_url = some url → j1.webhook_url = some url → j2.webhook_url = some url →
       url ≠ "" →
       j0.webhook_events = some ["completed"] → j1.webhook_events = some ["completed"] →
       j2.webhook_events = some ["completed"] →
       pushesOf [.notified j0 "queued", .notified j1 "running", .notified j2 "completed"] =
         [{ event := "completed", job_id := j2.job_id, status := j2.status, stage := j2.stage, progress := j2.progress, mode := j2.mode, target_kind := j2.target_kind, owner_id := j2.owner_id, updated_at := j2.updated_at }]) := by
  refine ⟨?_, ?_, ?_⟩
  · intro job event h
    simp [send_webhook, truthyStr, h]
  · intro job event
    cases hu : job.webhook_url with
    | none => simp [send_webhook, truthyStr, hu]
    | some u =>
      cases hwe : job.webhook_events with
      | none =>
        by_cases hue : u = "" <;>
          simp [send_webhook, truthyStr, webhookAllowList, hu, hwe, hue]
      | some l =>
        by_cases hl : l = []
        · subst hl
          by_cases hue : u = "" <;>
            simp [send_webhook, truthyStr, webhookAllowList, hu, hwe, hue]
        · by_cases hue : u = "" <;>
            simp [send_webhook, truthyStr, webhookAllowList, hu, hwe, hue, hl]
  · intro j0 j1 j2 url h0 h1 h2 hurl he0 he1 he2
    simp [pushesOf, send_webhook, truthyStr, h0, h1, h2, hurl, he0, he1, he2]

/- ---- the progress parser against the spec's pattern (C7) ---- -/

theorem space_not_digit (c : Char) (h : isSpaceChar c = true) : c.isDigit = false := by
  simp only [isSpaceChar, Bool.or_eq_true, beq_iff_eq] at h
  rcases h with ((((h | h) | h) | h) | h) | h <;> subst h <;> decide

theorem digit_not_space (c : Char) (h : c.isDigit = true) : isSpaceChar c = false := by
  cases hs : isSpaceChar c
  · rfl
  · rw [space_not_digit c hs] at h
    exact absurd h (by simp)

theorem takeWhile_run (p : Char → Bool) :
    ∀ (xs ys : List Char),
    (∀ c ∈ xs, p c = true) → (∀ d, ys.head? = some d → p d = false) →
    (xs ++ ys).takeWhile p = xs ∧ (xs ++ ys).dropWhile p = ys := by
  intro xs
  induction xs with
  | nil =>
    intro ys _ hy
    cases ys with
    | nil => simp
    | cons d t =>
      have hd := hy d rfl
      simp [List.takeWhile_cons, List.dropWhile_cons, hd]
  | cons x t ih =>
    intro ys hx hy
    have hpx : p x = true := hx x (List.mem_cons_self _ _)
    have h2 := ih ys (fun c hc => hx c (List.mem_cons_of_mem _ hc)) hy
    simp [List.takeWhile_cons, List.dropWhile_cons, hpx, h2.1, h2.2]

theorem matchTail_complete (sp ds post : List Char)
    (hsp : sp ≠ []) (hsp2 : ∀ c ∈ sp, isSpaceChar c = true)
    (hds : ds ≠ []) (hds2 : ∀ c ∈ ds, c.isDigit = true) :
    matchTail (':' :: (sp ++ (ds ++ '%' :: post))) = some (digitsVal ds) := by
  have hhead : ∀ d, (ds ++ '%' :: post).head? = some d → isSpaceChar d = false := by
    intro d hd
    obtain ⟨d0, t, rfl⟩ := List.exists_cons_of_ne_nil hds
    simp only [List.cons_append, List.head?_cons, Option.some.injEq] at hd
    rw [← hd]
    exact digit_not_space d0 (hds2 d0 (List.mem_cons_self _ _))
  obtain ⟨ht, hdr⟩ := takeWhile_run isSpaceChar sp (ds ++ '%' :: post) hsp2 hhead
  have hhead2 : ∀ d, ('%' :: post).head? = some d → Char.isDigit d = false := by
    intro d hd
    simp only [List.head?_cons, Option.some.injEq] at hd
    rw [← hd]; decide
  obtain ⟨ht2, hdr2⟩ := takeWhile_run Char.isDigit ds ('%' :: post) hds2 hhead2
  simp [matchTail, ht, hdr, ht2, hdr2, hsp, hds]

theorem matchTail_some (tail : List Char) (n : Nat) (h : matchTail tail = some n) :
    ∃ sp ds post, tail = ':' :: (sp ++ (ds ++ '%' :: post)) ∧
      sp ≠ [] ∧ (∀ c ∈ sp, isSpaceChar c = true) ∧
      ds ≠ [] ∧ (∀ c ∈ ds, c.isDigit = true) ∧ n = digitsVal ds := by
  unfold matchTail at h
  split at h
  case h_2 => exact absurd h (by simp)
  case h_1 rest =>
    by_cases hsp : (rest.takeWhile isSpaceChar).isEmpty
    · rw [if_pos hsp] at h; exact absurd h (by simp)
    · rw [if_neg hsp] at h
      by_cases hds : ((rest.dropWhile isSpaceChar).takeWhile Char.isDigit).isEmpty
      · rw [if_pos hds] at h; exact absurd h (by simp)
      · rw [if_neg hds] at h
        split at h
        case _ post heq =>
          refine ⟨rest.takeWhile isSpaceChar,
            (rest.dropWhile isSpaceChar).takeWhile Char.isDigit, post, ?_, ?_, ?_, ?_, ?_, ?_⟩
          · rw [← heq]
            rw [List.takeWhile_append_dropWhile, List.takeWhile_append_dropWhile]
          · intro he; exact hsp (by simp [he])
          · intro c hc; exact List.mem_takeWhile_imp hc
          · intro he; exact hds (by simp [he])
          · intro c hc; exact List.mem_takeWhile_imp hc
          · simpa using h.symm
        case _ => exact absurd h (by simp)

theorem isPrefixOf_append_self (l rest : List Char) : l.isPrefixOf (l ++ rest) = true := by
  induction l with
  | nil => simp [List.isPrefixOf]
  | cons a t ih => simp [List.isPrefixOf, List.cons_append, ih]

theorem isPrefixOf_head_ne (l1 l2 rest : List Char) (h1 : l1 ≠ []) (h2 : l2 ≠ [])
    (hne : l1.head? ≠ l2.head?) : l1.isPrefixOf (l2 ++ rest) = false := by
  cases l1 with
  | nil => exact absurd rfl h1
  | cons a t1 =>
    cases l2 with
    | nil => exact absurd rfl h2
    | cons b t2 =>
      have hab : ¬ a = b := by simpa [List.head?] using hne
      simp [List.isPrefixOf, List.cons_append, hab]

theorem find_verb_neg (v w : String) (rest : List Char) (h1 : v.data ≠ []) (h2 : w.data ≠ [])
    (hne : v.data.head? ≠ w.data.head?) :
    ¬ (v.data.isPrefixOf (w.data ++ rest) = true) := by
  rw [isPrefixOf_head_ne v.data w.data rest h1 h2 hne]
  simp

theorem find_verb (verb : String) (hverb : verb ∈ progressVerbs) (rest : List Char) :
    progressVerbs.find? (fun v => v.data.isPrefixOf (verb.data ++ rest)) = some verb := by
  rcases hverb with _ | ⟨_, _ | ⟨_, _ | ⟨_, _ | ⟨_, _ | ⟨_, _ | ⟨_, h⟩⟩⟩⟩⟩⟩
  · simp only [progressVerbs, List.find?,
      isPrefixOf_append_self "analysing".data rest]
  · simp only [progressVerbs, List.find?,
      isPrefixOf_head_ne "analysing".data "extracting".data rest (by decide) (by decide) (by decide),
      isPrefixOf_append_self "extracting".data rest]
  · simp only [progressVerbs, List.find?,
      isPrefixOf_head_ne "analysing".data "processing".data rest (by decide) (by decide) (by decide),
      isPrefixOf_head_ne "extracting".data "processing".data rest (by decide) (by decide) (by decide),
      isPrefixOf_append_self "processing".data rest]
  · simp only [progressVerbs, List.find?,
      isPrefixOf_head_ne "analysing".data "merging".data rest (by decide) (by decide) (by decide),
      isPrefixOf_head_ne "extracting".data "merging".data rest (by decide) (by decide) (by decide),
      isPrefixOf_head_ne "processing".data "merging".data rest (by decide) (by decide) (by decide),
      isPrefixOf_append_self "merging".data rest]
  · simp only [progressVerbs, List.find?,
      isPrefixOf_head_ne "analysing".data "restoring".data rest (by decide) (by decide) (by decide),
      isPrefixOf_head_ne "extracting".data "restoring".data rest (by decide) (by decide) (by decide),
      isPrefixOf_head_ne "processing".data "restoring".data rest (by decide) (by decide) (by decide),
      isPrefixOf_head_ne "merging".data "restoring".data rest (by decide) (by decide) (by decide),
      isPrefixOf_append_self "restoring".data rest]
  · simp only [progressVerbs, List.find?,
      isPrefixOf_head_ne "analysing".data "finalizing".data rest (by decide) (by decide) (by decide),
      isPrefixOf_head_ne "extracting".data "finalizing".data rest (by decide) (by decide) (by decide),
      isPrefixOf_head_ne "processing".data "finalizing".data rest (by decide) (by decide) (by decide),
      isPrefixOf_head_ne "merging".data "finalizing".data rest (by decide) (by decide) (by decide),
      isPrefixOf_head_ne "restoring".data "finalizing".data rest (by decide) (by decide) (by decide),
      isPrefixOf_append_self "finalizing".data rest]
  · cases h

theorem tryMatchAt_complete (verb : String) (hverb : verb ∈ progressVerbs)
    (sp ds post : List Char)
    (hsp : sp ≠ []) (hsp2 : ∀ c ∈ sp, isSpaceChar c = true)
    (hds : ds ≠ []) (hds2 : ∀ c ∈ ds, c.isDigit = true) :
    tryMatchAt (verb.data ++ ':' :: (sp ++ (ds ++ '%' :: post))) = some (verb, digitsVal ds) := by
  have hdrop : (verb.data ++ ':' :: (sp ++ (ds ++ '%' :: post))).drop verb.length
      = ':' :: (sp ++ (ds ++ '%' :: post)) := by
    have hl : verb.length = verb.data.length := rfl
    rw [hl, List.drop_left]
  simp only [tryMatchAt, find_verb verb hverb, hdrop,
    matchTail_complete sp ds post hsp hsp2 hds hds2]

theorem tryMatchAt_some (cs : List Char) (stage : String) (pct : Nat)
    (h : tryMatchAt cs = some (stage, pct)) :
    stage ∈ progressVerbs ∧ ∃ tail, cs = stage.data ++ tail ∧ matchTail tail = some pct := by
  unfold tryMatchAt at h
  cases hf : progressVerbs.find? (fun v => v.data.isPrefixOf cs) with
  | none => rw [hf] at h; exact absurd h (by simp)
  | some v =>
    rw [hf] at h
    have hv1 : v.data.isPrefixOf cs = true := by simpa using List.find?_some hf
    have hv2 : v ∈ progressVerbs := List.mem_of_find?_eq_some hf
    obtain ⟨tail, htail⟩ : ∃ t, cs = v.data ++ t := by
      obtain ⟨t, ht⟩ := List.isPrefixOf_iff_prefix.mp hv1
      exact ⟨t, ht.symm⟩
    cases hm : matchTail (cs.drop v.length) with
    | none => simp only [hm] at h; exact absurd h (by simp)
    | some n =>
      simp only [hm, Option.some.injEq, Prod.mk.injEq] at h
      obtain ⟨hsv, hpv⟩ := h
      subst hsv
      subst hpv
      refine ⟨hv2, tail, htail, ?_⟩
      rw [htail, show v.length = v.data.length from rfl, List.drop_left] at hm
      exact hm

theorem regexSearch_isSome_append (pre rest : List Char) (h : (tryMatchAt rest).isSome = true) :
    (regexSearch (pre ++ rest)).isSome = true := by
  induction pre with
  | nil =>
    simp only [List.nil_append]
    cases rest with
    | nil =>
      rw [show tryMatchAt ([] : List Char) = none from rfl] at h
      exact absurd h (by simp)
    | cons c t =>
      unfold regexSearch
      cases hm : tryMatchAt (c :: t) with
      | none => rw [hm] at h; exact absurd h (by simp)
      | some r => simp
  | cons c t ih =>
    simp only [List.cons_append]
    unfold regexSearch
    cases hm : tryMatchAt (c :: (t ++ rest)) with
    | none => exact ih
    | some r => simp

theorem regexSearch_some_split :
    ∀ (cs : List Char) (r : String × Nat), regexSearch cs = some r →
    ∃ pre rest, cs = pre ++ rest ∧ tryMatchAt rest = some r := by
  intro cs
  induction cs with
  | nil => intro r h; simp [regexSearch] at h
  | cons c t ih =>
    intro r h
    unfold regexSearch at h
    cases hm : tryMatchAt (c :: t) with
    | some v =>
      rw [hm] at h
      refine ⟨[], c :: t, rfl, ?_⟩
      rw [hm]
      simpa using h
    | none =>
      rw [hm] at h
      obtain ⟨pre, rest, h1, h2⟩ := ih r h
      exact ⟨c :: pre, rest, by rw [List.cons_append, ← h1], h2⟩

/-- C7. `parse_progress` returns a match exactly when the line contains
a lowercase verb of the fixed set followed by `:`, whitespace, an
unsigned integer and `%` (the spec's pattern); a returned stage is
always one of the six verbs; the parser is a total function (it cannot
throw); the three round-trip examples hold; and an out-of-range percent
is passed through unclamped. -/
theorem C7_progress_parser_contract :
    (∀ line : String, (parse_progress line).isSome = true ↔ SpecProgressLine line) ∧
    (∀ (line stage : String) (pct : Nat),
      parse_progress line = some (stage, pct) → stage ∈ progressVerbs) ∧
    parse_progress "processing: 42%" = some ("processing", 42) ∧
    parse_progress "hello world" = none ∧
    parse_progress "finalizing: 100%" = some ("finalizing", 100) ∧
    parse_progress "processing: 150%" = some ("processing", 150) := by
  have hsound : ∀ (line stage : String) (pct : Nat),
      parse_progress line = some (stage, pct) →
      stage ∈ progressVerbs ∧ ∃ pre tail, line.data = pre ++ (stage.data ++ tail) ∧
        matchTail tail = some pct := by
    intro line stage pct h
    obtain ⟨pre, rest, h1, h2⟩ := regexSearch_some_split line.data (stage, pct) h
    obtain ⟨hmem, tail, h3, h4⟩ := tryMatchAt_some rest stage pct h2
    exact ⟨hmem, pre, tail, by rw [h1, h3], h4⟩
  refine ⟨?_, fun line stage pct h => (hsound line stage pct h).1,
    by decide, by decide, by decide, by decide⟩
  intro line
  constructor
  · intro h
    obtain ⟨r, hr⟩ := Option.isSome_iff_exists.mp h
    obtain ⟨stage, pct⟩ := r
    obtain ⟨hmem, pre, tail, h1, h4⟩ := hsound line stage pct hr
    obtain ⟨sp, ds, post, h5, h6, h7, h8, h9, h10⟩ := matchTail_some tail pct h4
    refine ⟨pre, post, sp, ds, stage, hmem, h6, h7, h8, h9, ?_⟩
    rw [h1, h5]
    simp [List.append_assoc]
  · rintro ⟨pre, post, sp, ds, verb, hverb, h1, h2, h3, h4, h5⟩
    unfold parse_progress
    have he : line.data = pre ++ (verb.data ++ ':' :: (sp ++ (ds ++ '%' :: post))) := by
      rw [h5]; simp [List.append_assoc]
    rw [he]
    apply regexSearch_isSome_append
    rw [tryMatchAt_complete verb hverb sp ds post h1 h2 h3 h4]
    rfl
